import Mathlib

/-!
Verification development for the mito directory archiver
(src/src/main.rs).

The program packs a directory tree into a single archive file and
unpacks it again, in four modes (plain, per-file base64, and two
whole-stream zlib-compressed variants).  We give a shallow embedding:

* byte streams are `List Nat` (each element is one byte of the stream;
  the Rust code reads archives with read_to_string, i.e. as UTF-8 text,
  which for the ASCII framing used here coincides with the byte view);
* a filesystem entry is its list of path segments plus its content
  bytes; the depth-first traversal of visit_dirs is abstracted as the
  list of entries it yields, in traversal order;
* the two external collaborators used by the code keep their library
  contracts but not their internals:
  - std's DefaultHasher (create_file_sep) is a parameter
    `hash : List Nat → Nat` (a deterministic 64-bit digest);
  - flate2's ZlibEncoder/ZlibDecoder are parameters
    `compress`/`decompress : List Nat → List Nat`;
  the base64 crate's encode/decode (standard alphabet, padded encode,
  decoder that accepts an unpadded final group but rejects a stray
  padding position, an invalid symbol, a lone trailing symbol and
  nonzero trailing bits) is embedded concretely as `b64e`/`b64d`;
* file-writing during decode is represented by the list of
  (path, content) records in creation order: opening a file appends a
  record, writing appends to the newest record.  `none` as a decode
  result models abnormal termination of the Rust process: the
  read_to_string calls of decode_dir return Err(InvalidData) on
  non-UTF-8 input (modelled by the `validUtf8` checks), and every
  error exit inside the scanning loop itself is a panic in the source
  (an out-of-range slice or an .unwrap()), never a caught error.
-/

namespace Mito

/-- Bytes of an ASCII string literal (each char's code point; all the
literals used by the program are ASCII, where this agrees with UTF-8). -/
def str (s : String) : List Nat := s.data.map Char.toNat

/-- One filesystem entry yielded by visit_dirs: the normal components of
its path (entry.path() relative to the traversal root "."), and the
bytes read by read_to_end. -/
structure Entry where
  path : List (List Nat)
  content : List Nat
  deriving DecidableEq

/-- const IGNORED_FILE_DIR: the six fixed excluded names, including the
tool's own ENCODE_OUTPUT ("out.out") and DECODE_OUTPUT ("output"). -/
def IGNORED_FILE_DIR : List (List Nat) :=
  [str ".git", str "Cargo.lock", str "target", str "node_modules",
   str "out.out", str "output"]

/-- The ignored-check of encode_dir: some normal component of the
entry's path equals (string equality, no globbing) one of the six fixed
names. -/
def isIgnored (e : Entry) : Bool :=
  e.path.any (fun seg => IGNORED_FILE_DIR.any (fun q => q == seg))

/-- Join path segments with the separator byte 47. -/
def sepJoin : List (List Nat) → List Nat
  | [] => []
  | [s] => s
  | s :: rest => s ++ 47 :: sepJoin rest

/-- entry.path().to_string_lossy(): the traversal starts at ".", so the
rendered path is "./" followed by the components joined with "/". -/
def render (e : Entry) : List Nat := str "./" ++ sepJoin e.path

/-- Decimal digits of n, most significant first (helper with explicit
fuel so that the definition is structurally recursive). -/
def natDecFuel : Nat → Nat → List Nat
  | 0, _ => []
  | f + 1, n => if n < 10 then [48 + n] else natDecFuel f (n / 10) ++ [48 + n % 10]

/-- u64 Display: the decimal rendering used by hasher.finish().to_string(). -/
def natDec (n : Nat) : List Nat := natDecFuel (n + 1) n

/-- fn file_sep: "====" + path + "|" + hash + "====" + newline. -/
def file_sep (path hashStr : List Nat) : List Nat :=
  str "====" ++ path ++ str "|" ++ hashStr ++ str "====\n"

/-- fn create_file_sep: feed the buffer (and nothing else) to a fresh
DefaultHasher, render finish() in decimal, and build the frame header.
The hasher itself is external to the repository and is passed in as
`hash`. -/
def create_file_sep (hash : List Nat → Nat) (path buffer : List Nat) : List Nat :=
  file_sep path (natDec (hash buffer))

/-- Standard base64 alphabet, sextet to ASCII code. -/
def base64Char (n : Nat) : Nat :=
  if n < 26 then 65 + n
  else if n < 52 then 97 + (n - 26)
  else if n < 62 then 48 + (n - 52)
  else if n = 62 then 43
  else 47

/-- Inverse of the alphabet; 61 is the padding character and is not a
data symbol. -/
def b64CharDecode (c : Nat) : Option Nat :=
  if 65 ≤ c ∧ c ≤ 90 then some (c - 65)
  else if 97 ≤ c ∧ c ≤ 122 then some (26 + (c - 97))
  else if 48 ≤ c ∧ c ≤ 57 then some (52 + (c - 48))
  else if c = 43 then some 62
  else if c = 47 then some 63
  else none

/-- base64::encode (standard, padded): three input bytes become four
symbols; a final group of one or two bytes is padded with 61. -/
def b64e : List Nat → List Nat
  | b1 :: b2 :: b3 :: rest =>
      base64Char (b1 / 4) :: base64Char (b1 % 4 * 16 + b2 / 16) ::
      base64Char (b2 % 16 * 4 + b3 / 64) :: base64Char (b3 % 64) :: b64e rest
  | [b1, b2] => [base64Char (b1 / 4), base64Char (b1 % 4 * 16 + b2 / 16),
                 base64Char (b2 % 16 * 4), 61]
  | [b1] => [base64Char (b1 / 4), base64Char (b1 % 4 * 16), 61, 61]
  | [] => []

/-- base64::decode (standard): full groups of four symbols, padding only
in the final group, a final group of two or three symbols also accepted
without padding, nonzero trailing bits rejected, a single leftover
symbol rejected. -/
def b64d : List Nat → Option (List Nat)
  | [] => some []
  | [_] => none
  | [c1, c2] => do
      let s1 ← b64CharDecode c1
      let s2 ← b64CharDecode c2
      if s2 % 16 = 0 then some [s1 * 4 + s2 / 16] else none
  | [c1, c2, c3] => do
      let s1 ← b64CharDecode c1
      let s2 ← b64CharDecode c2
      let s3 ← b64CharDecode c3
      if s3 % 4 = 0 then some [s1 * 4 + s2 / 16, s2 % 16 * 16 + s3 / 4] else none
  | c1 :: c2 :: c3 :: c4 :: rest =>
      if c4 = 61 then
        if rest = [] then
          if c3 = 61 then do
            let s1 ← b64CharDecode c1
            let s2 ← b64CharDecode c2
            if s2 % 16 = 0 then some [s1 * 4 + s2 / 16] else none
          else do
            let s1 ← b64CharDecode c1
            let s2 ← b64CharDecode c2
            let s3 ← b64CharDecode c3
            if s3 % 4 = 0 then some [s1 * 4 + s2 / 16, s2 % 16 * 16 + s3 / 4]
            else none
        else none
      else do
        let s1 ← b64CharDecode c1
        let s2 ← b64CharDecode c2
        let s3 ← b64CharDecode c3
        let s4 ← b64CharDecode c4
        let rest' ← b64d rest
        some ((s1 * 4 + s2 / 16) :: (s2 % 16 * 16 + s3 / 4) ::
              (s3 % 4 * 64 + s4) :: rest')

/-- enum Mode. -/
inductive Mode where
  | Plain
  | Base64
  | CompressedTxt
  | CompressedBinary
  deriving DecidableEq

/-- The visit_dirs callback of encode_dir for one entry: skip it when
ignored, otherwise append the frame header followed by the per-mode
payload.  In Plain/Base64 mode `acc` models the bytes written to
out_file so far; in the compressed modes it models the bytes fed to the
shared ZlibEncoder so far (both compressed arms write the base64 text
of the buffer plus a newline). -/
def writeEntry (hash : List Nat → Nat) (mode : Mode) (acc : List Nat)
    (entry : Entry) : List Nat :=
  if isIgnored entry then acc
  else
    let buffer := entry.content
    let fileSep := create_file_sep hash (render entry) buffer
    match mode with
    | .Plain => acc ++ fileSep ++ buffer ++ [10]
    | .Base64 => acc ++ fileSep ++ b64e buffer ++ [10]
    | .CompressedBinary => acc ++ fileSep ++ b64e buffer ++ [10]
    | .CompressedTxt => acc ++ fileSep ++ b64e buffer ++ [10]

/-- fn encode_dir, returning the bytes of the out.out archive.  The
traversal is abstracted as the entry list; after all entries are
written, CompressedBinary writes e.finish() verbatim and CompressedTxt
writes its base64 text, while Plain/Base64 have already written
everything. -/
def encode_dir (hash : List Nat → Nat) (compress : List Nat → List Nat)
    (mode : Mode) (entries : List Entry) : List Nat :=
  let body := entries.foldl (writeEntry hash mode) []
  match mode with
  | .CompressedBinary => compress body
  | .CompressedTxt => b64e (compress body)
  | _ => body

/-- Specification view of one frame as encode_dir emits it. -/
def frameFor (hash : List Nat → Nat) (mode : Mode) (e : Entry) : List Nat :=
  create_file_sep hash (render e) e.content ++
    (match mode with
     | .Plain => e.content
     | _ => b64e e.content) ++ [10]

/-- Specification view of the whole pre-outer-layer frame stream: the
concatenated frames of the non-ignored entries in traversal order. -/
def encodeBody (hash : List Nat → Nat) (mode : Mode) (entries : List Entry) :
    List Nat :=
  ((entries.filter (fun e => !isIgnored e)).map (frameFor hash mode)).flatten

/-- Boundary recognition of decode_dir:
line.starts_with("====") && line.ends_with("====" + newline). -/
def isHeaderLine (line : List Nat) : Bool :=
  (str "====").isPrefixOf line && (str "====\n").isSuffixOf line

/-- The slice line[4 .. line.len() - 5] followed by split on the first
124 ('|').  The slice panics (modelled as none) when the range is
inverted, i.e. when 4 > line.len() - 5. -/
def extractHeaderPath (line : List Nat) : Option (List Nat) :=
  if 4 ≤ line.length - 5 then
    some (((line.drop 4).take (line.length - 5 - 4)).takeWhile (fun b => b != 124))
  else none

/-- The line discipline of the decode loop: each chunk runs up to and
including a newline byte; a final chunk without a newline is taken
whole (buffer.find, split_at in the source). -/
def splitAfterNL : List Nat → List (List Nat)
  | [] => []
  | b :: t =>
    if b = 10 then [10] :: splitAfterNL t
    else
      match splitAfterNL t with
      | [] => [[b]]
      | l :: ls => (b :: l) :: ls

/-- The scanning loop of decode_dir over the recovered text, one line at
a time.  `curr` is the currently open output file (path, bytes written
so far), `acc` the files already finished, in creation order.  A header
line opens a new file (committing the old one); a payload line is
written verbatim in Plain mode, and in every other mode loses its last
byte unconditionally and is then base64-decoded; with no open file a
line is discarded.  `none` models a panic (the header slice or the
base64 .unwrap()). -/
def scanLines (mode : Mode) :
    List (List Nat) → Option (List Nat × List Nat) →
    List (List Nat × List Nat) → Option (List (List Nat × List Nat))
  | [], curr, acc => some (acc ++ curr.toList)
  | line :: rest, curr, acc =>
    if isHeaderLine line then
      match extractHeaderPath line with
      | none => none
      | some p => scanLines mode rest (some (p, [])) (acc ++ curr.toList)
    else
      match curr with
      | none => scanLines mode rest none acc
      | some (p, c) =>
        match mode with
        | .Plain => scanLines mode rest (some (p, c ++ line)) acc
        | _ =>
          match b64d line.dropLast with
          | none => none
          | some d => scanLines mode rest (some (p, c ++ d)) acc

/-- Scan a recovered frame stream from an empty state. -/
def scanAll (mode : Mode) (text : List Nat) :
    Option (List (List Nat × List Nat)) :=
  scanLines mode (splitAfterNL text) none []

/-- Well-formed UTF-8, as std's str validation enforces it (RFC 3629),
checked by the standard byte automaton.  The state is the number of
continuation bytes still expected together with the allowed range for
the next byte: from the start state, ASCII stands alone; two-byte
leads are C2-DF; three-byte leads are E0 (second byte A0-BF, no
overlongs), E1-EC and EE-EF (second byte 80-BF), ED (second byte
80-9F, no surrogates); four-byte leads are F0 (second byte 90-BF, no
overlongs), F1-F3, F4 (second byte 80-8F, max U+10FFFF); after the
second byte every continuation byte is 80-BF.  C0-C1 and F5-FF are
never legal.  Rust's read_to_string returns Err(InvalidData) exactly
when this check fails. -/
def validUtf8From : Nat × Nat × Nat → List Nat → Bool
  | (0, _, _), [] => true
  | (_ + 1, _, _), [] => false
  | (0, _, _), b :: t =>
    if b < 128 then validUtf8From (0, 0, 0) t
    else if 194 ≤ b ∧ b ≤ 223 then validUtf8From (1, 128, 191) t
    else if b = 224 then validUtf8From (2, 160, 191) t
    else if (225 ≤ b ∧ b ≤ 236) ∨ (238 ≤ b ∧ b ≤ 239) then validUtf8From (2, 128, 191) t
    else if b = 237 then validUtf8From (2, 128, 159) t
    else if b = 240 then validUtf8From (3, 144, 191) t
    else if 241 ≤ b ∧ b ≤ 243 then validUtf8From (3, 128, 191) t
    else if b = 244 then validUtf8From (3, 128, 143) t
    else false
  | (k + 1, lo, hi), b :: t =>
    if lo ≤ b ∧ b ≤ hi then validUtf8From (k, 128, 191) t else false

/-- A byte stream read_to_string accepts: the automaton run from the
start state succeeds. -/
def validUtf8 (l : List Nat) : Bool := validUtf8From (0, 0, 0) l

/-- fn decode_dir on the bytes of out.out: first undo the outer layer,
then scan the frame stream.  Every read in the source goes through
read_to_string, so the bytes read must be valid UTF-8 or the function
aborts with Err(InvalidData), modelled as none: Plain/Base64 and
CompressedTxt validate the archive file itself; both compressed modes
validate the decompressed stream (CompressedTxt additionally
base64-decodes the archive text in between, panicking on bad base64).
The result records the files created under the output root in creation
order, keyed by the path text taken from the header. -/
def decode_dir (decompress : List Nat → List Nat) (mode : Mode)
    (archive : List Nat) : Option (List (List Nat × List Nat)) :=
  match mode with
  | .CompressedBinary =>
    if validUtf8 (decompress archive) then scanAll mode (decompress archive) else none
  | .CompressedTxt =>
    if validUtf8 archive then
      match b64d archive with
      | none => none
      | some compressed =>
        if validUtf8 (decompress compressed) then scanAll mode (decompress compressed)
        else none
    else none
  | _ => if validUtf8 archive then scanAll mode archive else none

/-- Outcome of fn main's argument handling. -/
inductive MainResult where
  | encodeRun : Mode → MainResult
  | decodeRun : Mode → MainResult
  | usageHint : MainResult
  | panicBadMode : String → MainResult
  deriving DecidableEq

/-- The mode-flag match of fn main. -/
def parseMode : String → Option Mode
  | "--plain" => some .Plain
  | "--base64" => some .Base64
  | "--binary" => some .CompressedBinary
  | "--text" => some .CompressedTxt
  | _ => none

/-- fn main on the argument list after the program name: the first
argument is the command, the second the mode flag defaulting to
"--plain"; an unrecognized mode panics (with the source's message)
before the command is even inspected; a command that is neither
"encode" nor "decode" (including a missing one) prints the usage hint
on stderr and returns Ok. -/
def mainModel (args : List String) : MainResult :=
  let command := args.head?
  let modeStr := (args.drop 1).head?.getD "--plain"
  match parseMode modeStr with
  | none =>
    .panicBadMode ("not support " ++ modeStr ++
      ", available option are --[plain|base64|binary|text]")
  | some mode =>
    match command with
    | some "encode" => .encodeRun mode
    | some "decode" => .decodeRun mode
    | _ => .usageHint

/-- Well-formedness of a stream of bytes: every element is a byte. -/
abbrev bytesOk (l : List Nat) : Prop := ∀ b ∈ l, b < 256

/-- A rendered path that survives the frame format: it contains neither
the line separator 10 nor the path/tag separator 124. -/
abbrev pathOk (e : Entry) : Prop := 10 ∉ render e ∧ 124 ∉ render e

/-- Entry whose frame the decoder can recover. -/
abbrev entryOk (e : Entry) : Prop := pathOk e ∧ bytesOk e.content

/-- Plain-mode payload whose lines cannot be mistaken for frame
headers. -/
abbrev plainOk (c : List Nat) : Prop :=
  ∀ l ∈ splitAfterNL (c ++ [10]), isHeaderLine l = false

/-! ### Byte values of the framing literals -/

theorem str4_eq : str "====" = [61, 61, 61, 61] := by decide

theorem strHdrEnd_eq : str "====\n" = [61, 61, 61, 61, 10] := by decide

theorem strBar_eq : str "|" = [124] := by decide

/-! ### Facts about the base64 embedding -/

theorem b64CharDecode_base64Char :
    ∀ n, n < 64 → b64CharDecode (base64Char n) = some n := by
  decide

theorem base64Char_ne_61 (n : Nat) : base64Char n ≠ 61 := by
  unfold base64Char
  split <;> try omega
  split <;> try omega
  split <;> try omega
  split <;> omega

theorem base64Char_ne_10 (n : Nat) : base64Char n ≠ 10 := by
  unfold base64Char
  split <;> try omega
  split <;> try omega
  split <;> try omega
  split <;> omega

/-- Decoding inverts encoding on any byte list (the contract the Plain
and compressed-mode payload handling relies on). -/
theorem b64_roundtrip : ∀ bs : List Nat, (∀ b ∈ bs, b < 256) → b64d (b64e bs) = some bs
  | [] => fun _ => rfl
  | [b1] => fun h => by
      have h1 : b1 < 256 := h b1 (by simp)
      have e1 : b1 % 4 * 16 % 16 = 0 := by omega
      simp only [b64e, b64d]
      rw [b64CharDecode_base64Char _ (by omega), b64CharDecode_base64Char _ (by omega)]
      simp [e1]
      omega
  | [b1, b2] => fun h => by
      have h1 : b1 < 256 := h b1 (by simp)
      have h2 : b2 < 256 := h b2 (by simp)
      have e1 : (b2 % 16 * 4) % 4 = 0 := by omega
      simp only [b64e, b64d]
      rw [if_neg (base64Char_ne_61 (b2 % 16 * 4))]
      rw [b64CharDecode_base64Char _ (by omega), b64CharDecode_base64Char _ (by omega),
          b64CharDecode_base64Char _ (by omega)]
      simp [e1]
      omega
  | b1 :: b2 :: b3 :: rest => fun h => by
      have h1 : b1 < 256 := h b1 (by simp)
      have h2 : b2 < 256 := h b2 (by simp)
      have h3 : b3 < 256 := h b3 (by simp)
      have ih := b64_roundtrip rest (fun b hb => h b (by simp [hb]))
      simp only [b64e, b64d]
      rw [if_neg (base64Char_ne_61 (b3 % 64))]
      rw [b64CharDecode_base64Char _ (by omega), b64CharDecode_base64Char _ (by omega),
          b64CharDecode_base64Char _ (by omega), b64CharDecode_base64Char _ (by omega)]
      simp only [b64e] at ih
      simp [ih]
      omega

theorem base64Char_lt_128 (n : Nat) : base64Char n < 128 := by
  unfold base64Char
  split <;> try omega
  split <;> try omega
  split <;> try omega
  split <;> omega

/-- base64 text is pure ASCII. -/
theorem b64e_lt_128 : ∀ bs : List Nat, ∀ c ∈ b64e bs, c < 128
  | [] => by simp [b64e]
  | [b1] => by
      intro c hc
      simp only [b64e, List.mem_cons, List.not_mem_nil, or_false] at hc
      rcases hc with rfl | rfl | rfl | rfl
      · exact base64Char_lt_128 _
      · exact base64Char_lt_128 _
      · omega
      · omega
  | [b1, b2] => by
      intro c hc
      simp only [b64e, List.mem_cons, List.not_mem_nil, or_false] at hc
      rcases hc with rfl | rfl | rfl | rfl
      · exact base64Char_lt_128 _
      · exact base64Char_lt_128 _
      · exact base64Char_lt_128 _
      · omega
  | b1 :: b2 :: b3 :: rest => by
      intro c hc
      have ih := b64e_lt_128 rest
      simp only [b64e, List.mem_cons] at hc
      rcases hc with rfl | rfl | rfl | rfl | hc
      · exact base64Char_lt_128 _
      · exact base64Char_lt_128 _
      · exact base64Char_lt_128 _
      · exact base64Char_lt_128 _
      · exact ih c hc

theorem validUtf8From_of_lt_128 :
    ∀ l : List Nat, (∀ b ∈ l, b < 128) → validUtf8From (0, 0, 0) l = true
  | [] => fun _ => rfl
  | b :: t => fun h => by
      have hb : b < 128 := h b (by simp)
      have ih := validUtf8From_of_lt_128 t (fun x hx => h x (by simp [hx]))
      rw [validUtf8From, if_pos hb]
      exact ih

/-- An all-ASCII stream passes the UTF-8 validation of read_to_string. -/
theorem validUtf8_of_lt_128 (l : List Nat) (h : ∀ b ∈ l, b < 128) : validUtf8 l = true :=
  validUtf8From_of_lt_128 l h

/-- base64 text never contains the line separator. -/
theorem b64e_no_10 : ∀ bs : List Nat, 10 ∉ b64e bs
  | [] => by simp [b64e]
  | [b1] => by
      simp only [b64e, List.mem_cons, not_or]
      refine ⟨Ne.symm (base64Char_ne_10 _), Ne.symm (base64Char_ne_10 _), by omega, by omega, by simp⟩
  | [b1, b2] => by
      simp only [b64e, List.mem_cons, not_or]
      refine ⟨Ne.symm (base64Char_ne_10 _), Ne.symm (base64Char_ne_10 _),
        Ne.symm (base64Char_ne_10 _), by omega, by simp⟩
  | b1 :: b2 :: b3 :: rest => by
      have ih := b64e_no_10 rest
      simp only [b64e, List.mem_cons, not_or]
      exact ⟨Ne.symm (base64Char_ne_10 _), Ne.symm (base64Char_ne_10 _),
        Ne.symm (base64Char_ne_10 _), Ne.symm (base64Char_ne_10 _), ih⟩

theorem isPrefixOf_cons_cons (a b : Nat) (l₁ l₂ : List Nat) :
    (a :: l₁).isPrefixOf (b :: l₂) = ((a == b) && l₁.isPrefixOf l₂) := by
  rfl

/-- A line whose first byte is not 61 ('=') fails starts_with("====")
and so is not recognized as a header. -/
theorem not_header_of_head (c : Nat) (hc : c ≠ 61) (rest : List Nat) :
    isHeaderLine (c :: rest) = false := by
  unfold isHeaderLine
  rw [str4_eq, isPrefixOf_cons_cons]
  have h61 : ((61 : Nat) == c) = false := by simp [Ne.symm hc]
  rw [h61]
  simp

/-- A base64 payload line (text plus its newline) can never be taken for
a frame header: it is either the bare newline, or starts with an
alphabet symbol, never with 61. -/
theorem b64e_not_header : ∀ bs : List Nat, isHeaderLine (b64e bs ++ [10]) = false
  | [] => by decide
  | [b1] => by
      simp only [b64e, List.cons_append]
      exact not_header_of_head _ (base64Char_ne_61 _) _
  | [b1, b2] => by
      simp only [b64e, List.cons_append]
      exact not_header_of_head _ (base64Char_ne_61 _) _
  | b1 :: b2 :: b3 :: rest => by
      simp only [b64e, List.cons_append]
      exact not_header_of_head _ (base64Char_ne_61 _) _

/-! ### Facts about the decimal tag text -/

theorem natDecFuel_digits :
    ∀ f n c, c ∈ natDecFuel f n → 48 ≤ c ∧ c ≤ 57 := by
  intro f
  induction f with
  | zero => intro n c hc; simp [natDecFuel] at hc
  | succ f ih =>
    intro n c hc
    unfold natDecFuel at hc
    split at hc
    · simp at hc; omega
    · rcases List.mem_append.mp hc with h | h
      · exact ih _ _ h
      · simp at h; omega

theorem natDec_no_10 (n : Nat) : 10 ∉ natDec n := by
  intro h
  have := natDecFuel_digits _ _ _ h
  omega

theorem natDec_no_124 (n : Nat) : 124 ∉ natDec n := by
  intro h
  have := natDecFuel_digits _ _ _ h
  omega

/-! ### The line discipline -/

theorem splitAfterNL_cons_10 (t : List Nat) :
    splitAfterNL (10 :: t) = [10] :: splitAfterNL t := by
  simp [splitAfterNL]

theorem splitAfterNL_cons_ne_nil (b : Nat) (t : List Nat) (hb : b ≠ 10)
    (h : splitAfterNL t = []) : splitAfterNL (b :: t) = [[b]] := by
  simp [splitAfterNL, hb, h]

theorem splitAfterNL_cons_ne (b : Nat) (t : List Nat) (hb : b ≠ 10)
    (l : List Nat) (ls : List (List Nat)) (h : splitAfterNL t = l :: ls) :
    splitAfterNL (b :: t) = (b :: l) :: ls := by
  simp [splitAfterNL, hb, h]

theorem splitAfterNL_append_nl (a rest : List Nat) (ha : 10 ∉ a) :
    splitAfterNL (a ++ 10 :: rest) = (a ++ [10]) :: splitAfterNL rest := by
  induction a with
  | nil => simp [splitAfterNL]
  | cons b t ih =>
    have hb : b ≠ 10 := fun h => ha (by simp [h])
    have ht : 10 ∉ t := fun h => ha (by simp [h])
    rw [List.cons_append, splitAfterNL_cons_ne b _ hb _ _ (ih ht)]
    simp

theorem splitAfterNL_single (a : List Nat) (ha : 10 ∉ a) (hne : a ≠ []) :
    splitAfterNL a = [a] := by
  induction a with
  | nil => exact absurd rfl hne
  | cons b t ih =>
    have hb : b ≠ 10 := fun h => ha (by simp [h])
    have ht : 10 ∉ t := fun h => ha (by simp [h])
    cases t with
    | nil => exact splitAfterNL_cons_ne_nil b _ hb rfl
    | cons b2 t2 => exact splitAfterNL_cons_ne b _ hb _ _ (ih ht (by simp))

theorem splitAfterNL_flatten (s : List Nat) : (splitAfterNL s).flatten = s := by
  induction s with
  | nil => rfl
  | cons b t ih =>
    by_cases hb : b = 10
    · subst hb; simp [splitAfterNL, ih]
    · simp only [splitAfterNL, if_neg hb]
      cases hsp : splitAfterNL t with
      | nil =>
        have : t = [] := by simpa [hsp] using ih.symm
        simp [this]
      | cons l ls =>
        rw [hsp] at ih
        simpa using ih

theorem splitAfterNL_ne_nil (s : List Nat) (h : s ≠ []) : splitAfterNL s ≠ [] := by
  intro h0
  have := splitAfterNL_flatten s
  rw [h0] at this
  exact h this.symm

theorem splitAfterNL_append_of_last (s rest : List Nat) (h : s.getLast? = some 10) :
    splitAfterNL (s ++ rest) = splitAfterNL s ++ splitAfterNL rest := by
  induction s with
  | nil => simp at h
  | cons b t ih =>
    cases t with
    | nil =>
      have hb : b = 10 := by simpa using h
      subst hb
      simp [splitAfterNL]
    | cons b2 t2 =>
      have ht : (b2 :: t2).getLast? = some 10 := by
        rwa [List.getLast?_cons_cons] at h
      have ih2 := ih ht
      simp only [List.cons_append] at ih2 ⊢
      by_cases hb : b = 10
      · subst hb
        rw [splitAfterNL_cons_10, ih2, splitAfterNL_cons_10]
        simp
      · cases hsp : splitAfterNL (b2 :: t2) with
        | nil => exact absurd hsp (splitAfterNL_ne_nil _ (by simp))
        | cons l ls =>
          rw [hsp] at ih2
          rw [splitAfterNL_cons_ne b _ hb l (ls ++ splitAfterNL rest)
              (by rw [ih2]; simp),
            splitAfterNL_cons_ne b _ hb l ls hsp]
          simp

/-! ### Recognition and parsing of header lines -/

theorem isPrefixOf_append_self (a b : List Nat) : a.isPrefixOf (a ++ b) = true := by
  simp only [List.isPrefixOf_iff_prefix]
  exact List.prefix_append a b

theorem isSuffixOf_append_self (s x : List Nat) : s.isSuffixOf (x ++ s) = true := by
  simp only [List.isSuffixOf_iff_suffix]
  exact List.suffix_append x s

/-- Every frame header satisfies both boundary tests of the decoder. -/
theorem isHeaderLine_file_sep (p t : List Nat) : isHeaderLine (file_sep p t) = true := by
  unfold isHeaderLine
  rw [Bool.and_eq_true]
  constructor
  · have h : file_sep p t = str "====" ++ (p ++ str "|" ++ t ++ str "====\n") := by
      simp [file_sep, List.append_assoc]
    rw [h]
    exact isPrefixOf_append_self _ _
  · have h : file_sep p t = (str "====" ++ p ++ str "|" ++ t) ++ str "====\n" := by
      simp [file_sep, List.append_assoc]
    rw [h]
    exact isSuffixOf_append_self _ _

/-- The byte spelling of a frame header. -/
theorem file_sep_cons (p t : List Nat) :
    file_sep p t = 61 :: 61 :: 61 :: 61 :: (p ++ 124 :: (t ++ [61, 61, 61, 61, 10])) := by
  simp [file_sep, str4_eq, strBar_eq, strHdrEnd_eq]

/-- A frame header over an ASCII path and tag is ASCII. -/
theorem file_sep_lt_128 (p t : List Nat) (hp : ∀ b ∈ p, b < 128)
    (ht : ∀ b ∈ t, b < 128) : ∀ b ∈ file_sep p t, b < 128 := by
  intro b hb
  rw [file_sep_cons] at hb
  simp only [List.mem_cons, List.mem_append, List.not_mem_nil, or_false] at hb
  rcases hb with rfl | rfl | rfl | rfl | hb | rfl | hb | rfl | rfl | rfl | rfl | rfl
  all_goals first | omega | exact hp b hb | exact ht b hb

theorem drop4_cons (a b c d : Nat) (l : List Nat) : (a :: b :: c :: d :: l).drop 4 = l := rfl

theorem takeWhile_append_bar (p t : List Nat) (hp : 124 ∉ p) :
    (p ++ 124 :: t).takeWhile (fun b => b != 124) = p := by
  induction p with
  | nil => simp [List.takeWhile]
  | cons a p' ih =>
    have ha : a ≠ 124 := fun h => hp (by simp [h])
    have hp' : 124 ∉ p' := fun h => hp (by simp [h])
    simp [List.takeWhile_cons, ha, ih hp']

/-- On a frame header the slice-and-split extraction recovers exactly
the path, whatever the tag text is. -/
theorem extractHeaderPath_file_sep (p t : List Nat) (hp : 124 ∉ p) :
    extractHeaderPath (file_sep p t) = some p := by
  rw [file_sep_cons]
  unfold extractHeaderPath
  have hlen : (61 :: 61 :: 61 :: 61 :: (p ++ 124 :: (t ++ [61, 61, 61, 61, 10]))).length
      = p.length + t.length + 10 := by
    simp
    omega
  rw [hlen, if_pos (by omega), drop4_cons]
  have hidx : p.length + t.length + 10 - 5 - 4 = p.length + (t.length + 1) := by omega
  rw [hidx, List.take_append (t.length + 1)]
  have htake : (124 :: (t ++ [61, 61, 61, 61, 10])).take (t.length + 1)
      = 124 :: (t ++ [61, 61, 61, 61, 10]).take t.length := rfl
  rw [htake, List.take_left, takeWhile_append_bar p t hp]

/-- A frame header whose path and tag are newline-free is exactly one
line of the stream. -/
theorem splitAfterNL_file_sep (p t rest : List Nat) (hp : 10 ∉ p) (ht : 10 ∉ t) :
    splitAfterNL (file_sep p t ++ rest) = file_sep p t :: splitAfterNL rest := by
  have hform : file_sep p t ++ rest
      = (61 :: 61 :: 61 :: 61 :: (p ++ 124 :: (t ++ [61, 61, 61, 61]))) ++ 10 :: rest := by
    rw [file_sep_cons]
    simp
  rw [hform, splitAfterNL_append_nl _ _ (by simp [hp, ht])]
  rw [file_sep_cons]
  simp

/-! ### Steps of the scanning loop -/

theorem scanLines_header (mode : Mode) (line : List Nat) (rest : List (List Nat))
    (curr : Option (List Nat × List Nat)) (acc : List (List Nat × List Nat))
    (p : List Nat) (hh : isHeaderLine line = true) (hx : extractHeaderPath line = some p) :
    scanLines mode (line :: rest) curr acc
      = scanLines mode rest (some (p, [])) (acc ++ curr.toList) := by
  simp [scanLines, hh, hx]

theorem scanLines_payload_plain (line : List Nat) (rest : List (List Nat))
    (p c : List Nat) (acc : List (List Nat × List Nat)) (hh : isHeaderLine line = false) :
    scanLines .Plain (line :: rest) (some (p, c)) acc
      = scanLines .Plain rest (some (p, c ++ line)) acc := by
  simp [scanLines, hh]

theorem scanLines_payload_b64 (mode : Mode) (hm : mode ≠ .Plain) (line : List Nat)
    (rest : List (List Nat)) (p c d : List Nat) (acc : List (List Nat × List Nat))
    (hh : isHeaderLine line = false) (hd : b64d line.dropLast = some d) :
    scanLines mode (line :: rest) (some (p, c)) acc
      = scanLines mode rest (some (p, c ++ d)) acc := by
  cases mode with
  | Plain => exact absurd rfl hm
  | Base64 => simp [scanLines, hh, hd]
  | CompressedTxt => simp [scanLines, hh, hd]
  | CompressedBinary => simp [scanLines, hh, hd]

/-- Consuming a whole block of payload lines in Plain mode appends the
block verbatim to the open file. -/
theorem scanLines_payload_block (pls rest : List (List Nat)) (p c : List Nat)
    (acc : List (List Nat × List Nat)) (h : ∀ l ∈ pls, isHeaderLine l = false) :
    scanLines .Plain (pls ++ rest) (some (p, c)) acc
      = scanLines .Plain rest (some (p, c ++ pls.flatten)) acc := by
  induction pls generalizing c with
  | nil => simp
  | cons l pls' ih =>
    rw [List.cons_append, scanLines_payload_plain _ _ _ _ _ (h l (by simp))]
    rw [ih (c ++ l) (fun x hx => h x (by simp [hx]))]
    simp

/-! ### The frame lists the encoder emits -/

theorem frameFor_not_plain (hash : List Nat → Nat) (mode : Mode) (hm : mode ≠ .Plain)
    (e : Entry) :
    frameFor hash mode e
      = file_sep (render e) (natDec (hash e.content)) ++ b64e e.content ++ [10] := by
  cases mode with
  | Plain => exact absurd rfl hm
  | Base64 => rfl
  | CompressedTxt => rfl
  | CompressedBinary => rfl

theorem frameFor_plain (hash : List Nat → Nat) (e : Entry) :
    frameFor hash .Plain e
      = file_sep (render e) (natDec (hash e.content)) ++ e.content ++ [10] := rfl

/-- Scanning the frame stream of entries in any base64-payload mode
recovers every entry's path and exact content. -/
theorem scan_frames_b64 (hash : List Nat → Nat) (mode : Mode) (hm : mode ≠ .Plain) :
    ∀ (es : List Entry) (curr : Option (List Nat × List Nat))
      (acc : List (List Nat × List Nat)), (∀ e ∈ es, entryOk e) →
      scanLines mode (splitAfterNL ((es.map (frameFor hash mode)).flatten)) curr acc
        = some (acc ++ curr.toList ++ es.map (fun e => (render e, e.content)))
  | [], curr, acc => fun _ => by simp [splitAfterNL, scanLines]
  | e :: es', curr, acc => fun hE => by
      obtain ⟨⟨hp10, hp124⟩, hbytes⟩ := hE e (by simp)
      have hE' : ∀ x ∈ es', entryOk x := fun x hx => hE x (by simp [hx])
      have ih := scan_frames_b64 hash mode hm es' (some (render e, [] ++ e.content))
        (acc ++ curr.toList) hE'
      have ht10 := natDec_no_10 (hash e.content)
      simp only [List.map_cons, List.flatten_cons, frameFor_not_plain hash mode hm e]
      rw [show (file_sep (render e) (natDec (hash e.content)) ++ b64e e.content ++ [10])
            ++ (es'.map (frameFor hash mode)).flatten
          = file_sep (render e) (natDec (hash e.content))
            ++ (b64e e.content ++ 10 :: (es'.map (frameFor hash mode)).flatten) by simp]
      rw [splitAfterNL_file_sep _ _ _ hp10 ht10]
      rw [splitAfterNL_append_nl _ _ (b64e_no_10 _)]
      rw [scanLines_header mode _ _ curr acc (render e) (isHeaderLine_file_sep _ _)
        (extractHeaderPath_file_sep _ _ hp124)]
      rw [scanLines_payload_b64 mode hm _ _ _ _ e.content _ (b64e_not_header _)
        (by rw [List.dropLast_concat]; exact b64_roundtrip _ hbytes)]
      rw [ih]
      simp

/-- Scanning the frame stream of entries in Plain mode recovers every
entry's path, and its content followed by the payload separator
newline, which the scanner does not strip. -/
theorem scan_frames_plain (hash : List Nat → Nat) :
    ∀ (es : List Entry) (curr : Option (List Nat × List Nat))
      (acc : List (List Nat × List Nat)),
      (∀ e ∈ es, entryOk e) → (∀ e ∈ es, plainOk e.content) →
      scanLines .Plain (splitAfterNL ((es.map (frameFor hash .Plain)).flatten)) curr acc
        = some (acc ++ curr.toList ++ es.map (fun e => (render e, e.content ++ [10])))
  | [], curr, acc => fun _ _ => by simp [splitAfterNL, scanLines]
  | e :: es', curr, acc => fun hE hP => by
      obtain ⟨⟨hp10, hp124⟩, hbytes⟩ := hE e (by simp)
      have hE' : ∀ x ∈ es', entryOk x := fun x hx => hE x (by simp [hx])
      have hP' : ∀ x ∈ es', plainOk x.content := fun x hx => hP x (by simp [hx])
      have ih := scan_frames_plain hash es' (some (render e, [] ++ (e.content ++ [10])))
        (acc ++ curr.toList) hE' hP'
      have ht10 := natDec_no_10 (hash e.content)
      simp only [List.map_cons, List.flatten_cons, frameFor_plain hash e]
      rw [show (file_sep (render e) (natDec (hash e.content)) ++ e.content ++ [10])
            ++ (es'.map (frameFor hash .Plain)).flatten
          = file_sep (render e) (natDec (hash e.content))
            ++ ((e.content ++ [10]) ++ (es'.map (frameFor hash .Plain)).flatten) by simp]
      rw [splitAfterNL_file_sep _ _ _ hp10 ht10]
      rw [splitAfterNL_append_of_last (e.content ++ [10]) _ (List.getLast?_concat _)]
      rw [scanLines_header _ _ _ curr acc (render e) (isHeaderLine_file_sep _ _)
        (extractHeaderPath_file_sep _ _ hp124)]
      rw [scanLines_payload_block _ _ _ _ _ (hP e (by simp))]
      rw [splitAfterNL_flatten]
      rw [ih]
      simp

/-! ### The encoder as a frame stream -/

theorem writeEntry_eq (hash : List Nat → Nat) (mode : Mode) (acc : List Nat) (e : Entry) :
    writeEntry hash mode acc e
      = acc ++ (if isIgnored e then [] else frameFor hash mode e) := by
  unfold writeEntry frameFor
  by_cases hi : isIgnored e
  · simp [hi]
  · simp only [hi, Bool.false_eq_true, if_false, if_neg]
    cases mode <;> simp

theorem foldl_writeEntry (hash : List Nat → Nat) (mode : Mode) :
    ∀ (entries : List Entry) (init : List Nat),
      entries.foldl (writeEntry hash mode) init = init ++ encodeBody hash mode entries
  | [], init => by simp [encodeBody]
  | e :: es, init => by
      rw [List.foldl_cons, writeEntry_eq, foldl_writeEntry hash mode es _]
      by_cases hi : isIgnored e
      · simp [encodeBody, List.filter_cons, hi]
      · simp [encodeBody, List.filter_cons, hi]

theorem encode_dir_plain_eq (hash : List Nat → Nat) (compress : List Nat → List Nat)
    (entries : List Entry) :
    encode_dir hash compress .Plain entries = encodeBody hash .Plain entries := by
  unfold encode_dir
  rw [foldl_writeEntry]
  simp

theorem encode_dir_base64_eq (hash : List Nat → Nat) (compress : List Nat → List Nat)
    (entries : List Entry) :
    encode_dir hash compress .Base64 entries = encodeBody hash .Base64 entries := by
  unfold encode_dir
  rw [foldl_writeEntry]
  simp

theorem encode_dir_bin_eq (hash : List Nat → Nat) (compress : List Nat → List Nat)
    (entries : List Entry) :
    encode_dir hash compress .CompressedBinary entries
      = compress (encodeBody hash .CompressedBinary entries) := by
  unfold encode_dir
  rw [foldl_writeEntry]
  simp

theorem encode_dir_txt_eq (hash : List Nat → Nat) (compress : List Nat → List Nat)
    (entries : List Entry) :
    encode_dir hash compress .CompressedTxt entries
      = b64e (compress (encodeBody hash .CompressedTxt entries)) := by
  unfold encode_dir
  rw [foldl_writeEntry]
  simp

/-! ### Decode after encode -/

/-- The frame stream of ASCII paths (and, in Plain mode, ASCII
contents) passes the UTF-8 validation the decoder's reads perform. -/
theorem frameFor_lt_128 (hash : List Nat → Nat) (mode : Mode) (e : Entry)
    (hp : ∀ b ∈ render e, b < 128)
    (hc : mode = .Plain → ∀ b ∈ e.content, b < 128) :
    ∀ b ∈ frameFor hash mode e, b < 128 := by
  have hts : ∀ b ∈ natDec (hash e.content), b < 128 := by
    intro b hb
    have := natDecFuel_digits _ _ _ hb
    omega
  have hfs := file_sep_lt_128 (render e) (natDec (hash e.content)) hp hts
  intro b hb
  cases mode with
  | Plain =>
    rw [frameFor_plain] at hb
    simp only [List.mem_append, List.mem_cons, List.not_mem_nil, or_false] at hb
    rcases hb with (hb | hb) | rfl
    · exact hfs b hb
    · exact hc rfl b hb
    · omega
  | Base64 =>
    rw [frameFor_not_plain hash .Base64 (by simp) e] at hb
    simp only [List.mem_append, List.mem_cons, List.not_mem_nil, or_false] at hb
    rcases hb with (hb | hb) | rfl
    · exact hfs b hb
    · exact b64e_lt_128 e.content b hb
    · omega
  | CompressedTxt =>
    rw [frameFor_not_plain hash .CompressedTxt (by simp) e] at hb
    simp only [List.mem_append, List.mem_cons, List.not_mem_nil, or_false] at hb
    rcases hb with (hb | hb) | rfl
    · exact hfs b hb
    · exact b64e_lt_128 e.content b hb
    · omega
  | CompressedBinary =>
    rw [frameFor_not_plain hash .CompressedBinary (by simp) e] at hb
    simp only [List.mem_append, List.mem_cons, List.not_mem_nil, or_false] at hb
    rcases hb with (hb | hb) | rfl
    · exact hfs b hb
    · exact b64e_lt_128 e.content b hb
    · omega

/-- Sufficient condition for the recovered frame stream to be valid
UTF-8: rendered paths, and in Plain mode file contents, are ASCII. -/
theorem encodeBody_ascii (hash : List Nat → Nat) (mode : Mode) (entries : List Entry)
    (hp : ∀ e ∈ entries, isIgnored e = false → ∀ b ∈ render e, b < 128)
    (hc : mode = .Plain → ∀ e ∈ entries, isIgnored e = false → ∀ b ∈ e.content, b < 128) :
    validUtf8 (encodeBody hash mode entries) = true := by
  apply validUtf8_of_lt_128
  intro b hb
  unfold encodeBody at hb
  rw [List.mem_flatten] at hb
  obtain ⟨l, hl, hbl⟩ := hb
  rw [List.mem_map] at hl
  obtain ⟨e, he, rfl⟩ := hl
  rw [List.mem_filter] at he
  exact frameFor_lt_128 hash mode e (hp e he.1 (by simpa using he.2))
    (fun hm => hc hm e he.1 (by simpa using he.2)) b hbl

/-- The central helper: decoding an archive produced by the encoder, in
the same mode, recovers the non-ignored entries in traversal order,
exactly in the three base64-payload modes and with one extra trailing
newline per file in Plain mode.  The zlib hypotheses say only that the
external decompressor inverts the external compressor on the stream at
hand and that compressed bytes are bytes; hU says the recovered frame
stream is valid UTF-8, which the decoder's read_to_string requires. -/
theorem decode_encode (hash : List Nat → Nat) (compress decompress : List Nat → List Nat)
    (mode : Mode) (entries : List Entry)
    (hE : ∀ e ∈ entries, isIgnored e = false → entryOk e)
    (hP : mode = .Plain → ∀ e ∈ entries, isIgnored e = false → plainOk e.content)
    (hZ : decompress (compress (encodeBody hash mode entries)) = encodeBody hash mode entries)
    (hZB : mode = .CompressedTxt → bytesOk (compress (encodeBody hash mode entries)))
    (hU : validUtf8 (encodeBody hash mode entries) = true) :
    decode_dir decompress mode (encode_dir hash compress mode entries)
      = some ((entries.filter (fun e => !isIgnored e)).map
          (fun e => (render e, if mode = .Plain then e.content ++ [10] else e.content))) := by
  have hEk : ∀ e ∈ entries.filter (fun e => !isIgnored e), entryOk e := by
    intro e he
    rw [List.mem_filter] at he
    exact hE e he.1 (by simpa using he.2)
  cases mode with
  | Plain =>
    have hPk : ∀ e ∈ entries.filter (fun e => !isIgnored e), plainOk e.content := by
      intro e he
      rw [List.mem_filter] at he
      exact hP rfl e he.1 (by simpa using he.2)
    rw [encode_dir_plain_eq]
    show (if validUtf8 (encodeBody hash .Plain entries) = true then
        scanAll .Plain (encodeBody hash .Plain entries) else none) = _
    rw [if_pos hU]
    unfold scanAll encodeBody
    rw [scan_frames_plain hash _ none [] hEk hPk]
    simp
  | Base64 =>
    rw [encode_dir_base64_eq]
    show (if validUtf8 (encodeBody hash .Base64 entries) = true then
        scanAll .Base64 (encodeBody hash .Base64 entries) else none) = _
    rw [if_pos hU]
    unfold scanAll encodeBody
    rw [scan_frames_b64 hash .Base64 (by simp) _ none [] hEk]
    simp
  | CompressedBinary =>
    rw [encode_dir_bin_eq]
    show (if validUtf8 (decompress (compress (encodeBody hash .CompressedBinary entries))) = true
        then scanAll .CompressedBinary
          (decompress (compress (encodeBody hash .CompressedBinary entries)))
        else none) = _
    rw [hZ, if_pos hU]
    unfold scanAll encodeBody
    rw [scan_frames_b64 hash .CompressedBinary (by simp) _ none [] hEk]
    simp
  | CompressedTxt =>
    rw [encode_dir_txt_eq]
    show (if validUtf8 (b64e (compress (encodeBody hash .CompressedTxt entries))) = true then
        (match b64d (b64e (compress (encodeBody hash .CompressedTxt entries))) with
          | none => none
          | some compressed =>
            if validUtf8 (decompress compressed) = true then
              scanAll .CompressedTxt (decompress compressed)
            else none)
      else none) = _
    rw [if_pos (validUtf8_of_lt_128 _ (b64e_lt_128 _))]
    rw [b64_roundtrip _ (hZB rfl)]
    show (if validUtf8 (decompress (compress (encodeBody hash .CompressedTxt entries))) = true
        then scanAll .CompressedTxt
          (decompress (compress (encodeBody hash .CompressedTxt entries)))
        else none) = _
    rw [hZ, if_pos hU]
    unfold scanAll encodeBody
    rw [scan_frames_b64 hash .CompressedTxt (by simp) _ none [] hEk]
    simp

/-- When the recovered frame stream would fail UTF-8 validation, the
decode aborts (read_to_string returns Err(InvalidData)) and produces
nothing, in every mode. -/
theorem decode_encode_invalid (hash : List Nat → Nat)
    (compress decompress : List Nat → List Nat) (mode : Mode) (entries : List Entry)
    (hZ : decompress (compress (encodeBody hash mode entries)) = encodeBody hash mode entries)
    (hZB : mode = .CompressedTxt → bytesOk (compress (encodeBody hash mode entries)))
    (hU : validUtf8 (encodeBody hash mode entries) = false) :
    decode_dir decompress mode (encode_dir hash compress mode entries) = none := by
  have hU' : ¬ validUtf8 (encodeBody hash mode entries) = true := by simp [hU]
  cases mode with
  | Plain =>
    rw [encode_dir_plain_eq]
    show (if validUtf8 (encodeBody hash .Plain entries) = true then
        scanAll .Plain (encodeBody hash .Plain entries) else none) = none
    rw [if_neg hU']
  | Base64 =>
    rw [encode_dir_base64_eq]
    show (if validUtf8 (encodeBody hash .Base64 entries) = true then
        scanAll .Base64 (encodeBody hash .Base64 entries) else none) = none
    rw [if_neg hU']
  | CompressedBinary =>
    rw [encode_dir_bin_eq]
    show (if validUtf8 (decompress (compress (encodeBody hash .CompressedBinary entries))) = true
        then scanAll .CompressedBinary
          (decompress (compress (encodeBody hash .CompressedBinary entries)))
        else none) = none
    rw [hZ, if_neg hU']
  | CompressedTxt =>
    rw [encode_dir_txt_eq]
    show (if validUtf8 (b64e (compress (encodeBody hash .CompressedTxt entries))) = true then
        (match b64d (b64e (compress (encodeBody hash .CompressedTxt entries))) with
          | none => none
          | some compressed =>
            if validUtf8 (decompress compressed) = true then
              scanAll .CompressedTxt (decompress compressed)
            else none)
      else none) = none
    rw [if_pos (validUtf8_of_lt_128 _ (b64e_lt_128 _))]
    rw [b64_roundtrip _ (hZB rfl)]
    show (if validUtf8 (decompress (compress (encodeBody hash .CompressedTxt entries))) = true
        then scanAll .CompressedTxt
          (decompress (compress (encodeBody hash .CompressedTxt entries)))
        else none) = none
    rw [hZ, if_neg hU']

/-- In Plain mode a file whose content is not valid UTF-8 (here the
single byte 255) makes the decode abort at read_to_string and
reconstruct nothing: byte-for-byte round-trip fails here too, by an
error rather than by an altered file. -/
theorem plain_decode_nonUtf8_aborts :
    decode_dir (fun s => s) Mode.Plain
        (encode_dir (fun _ => 0) (fun s => s) Mode.Plain [⟨[str "x"], [255]⟩]) = none := by
  decide

/-! ### The claims -/

/-- C1, counterexample to the claim as stated: already for the one-file
tree c.txt = "hi" in Plain mode, decode reproduces the file with
content "hi" plus a trailing newline, not byte-for-byte. -/
theorem plain_roundtrip_fails :
    decode_dir (fun s => s) Mode.Plain
        (encode_dir (fun _ => 0) (fun s => s) Mode.Plain [⟨[str "c.txt"], str "hi"⟩])
      = some [(str "./c.txt", str "hi" ++ [10])]
    ∧ str "hi" ++ [10] ≠ str "hi" := by
  decide

/-- C1 (amended): encoding then decoding in the same mode reproduces
every non-excluded entry at its rendered relative path, byte-for-byte
in the Base64, CompressedTxt and CompressedBinary modes, and with one
extra trailing newline byte per file in Plain mode; this requires the
recovered frame stream to be valid UTF-8 (hypothesis hU) because every
read in decode_dir goes through read_to_string, which errors on
non-UTF-8 input — in particular Plain mode aborts on non-UTF-8 file
content; paths must be free of newline and '|' bytes and, in Plain
mode, no content line may itself look like a frame header.  The
compression hypotheses state the zlib library contract on the stream
at hand. -/
theorem mito_roundtrip (hash : List Nat → Nat) (compress decompress : List Nat → List Nat)
    (mode : Mode) (entries : List Entry)
    (hE : ∀ e ∈ entries, isIgnored e = false → entryOk e)
    (hP : mode = .Plain → ∀ e ∈ entries, isIgnored e = false → plainOk e.content)
    (hZ : decompress (compress (encodeBody hash mode entries)) = encodeBody hash mode entries)
    (hZB : mode = .CompressedTxt → bytesOk (compress (encodeBody hash mode entries)))
    (hU : validUtf8 (encodeBody hash mode entries) = true) :
    decode_dir decompress mode (encode_dir hash compress mode entries)
      = some ((entries.filter (fun e => !isIgnored e)).map
          (fun e => (render e, if mode = .Plain then e.content ++ [10] else e.content))) :=
  decode_encode hash compress decompress mode entries hE hP hZ hZB hU

theorem mito_roundtrip_witness :
    decode_dir (fun s => s) Mode.Base64
        (encode_dir (fun _ => 0) (fun s => s) Mode.Base64
          [⟨[str "a", str "b.txt"], str "hi"⟩, ⟨[str "c.txt"], []⟩])
      = some [(str "./a/b.txt", str "hi"), (str "./c.txt", [])] :=
  (mito_roundtrip (fun _ => 0) (fun s => s) (fun s => s) Mode.Base64
      [⟨[str "a", str "b.txt"], str "hi"⟩, ⟨[str "c.txt"], []⟩]
      (by decide) (by decide) rfl (by decide) (by decide)).trans (by decide)

/-- C2, counterexample to the claim as stated: on the concrete tree
a/b.txt = "hi", c.txt = "", Plain-mode decode reconstructs the files
with contents "hi\n" and "\n", not "hi" and "". -/
theorem concrete_scenario_decode_fails :
    decode_dir (fun s => s) Mode.Plain
        (encode_dir (fun _ => 0) (fun s => s) Mode.Plain
          [⟨[str "a", str "b.txt"], str "hi"⟩, ⟨[str "c.txt"], []⟩])
      = some [(str "./a/b.txt", str "hi" ++ [10]), (str "./c.txt", [10])]
    ∧ str "hi" ++ [10] ≠ str "hi"
    ∧ ([10] : List Nat) ≠ [] := by
  decide

/-- C2 (amended): on the tree a/b.txt = "hi", c.txt = "", Plain-mode
encode produces exactly the header for a/b.txt, "hi" plus newline, the
header for c.txt, and a lone newline; Plain-mode decode of that archive
reconstructs a/b.txt with content "hi" plus newline and c.txt with a
single newline byte (the decoder writes payload lines verbatim and
never strips the separator newline). -/
theorem concrete_scenario_amended (hash : List Nat → Nat) :
    encode_dir hash (fun s => s) Mode.Plain
        [⟨[str "a", str "b.txt"], str "hi"⟩, ⟨[str "c.txt"], []⟩]
      = create_file_sep hash (str "./a/b.txt") (str "hi") ++ (str "hi" ++ [10])
        ++ create_file_sep hash (str "./c.txt") [] ++ [10]
    ∧ decode_dir (fun s => s) Mode.Plain
        (encode_dir hash (fun s => s) Mode.Plain
          [⟨[str "a", str "b.txt"], str "hi"⟩, ⟨[str "c.txt"], []⟩])
      = some [(str "./a/b.txt", str "hi" ++ [10]), (str "./c.txt", [10])] := by
  constructor
  · have hig1 : isIgnored ⟨[str "a", str "b.txt"], str "hi"⟩ = false := by decide
    have hig2 : isIgnored ⟨[str "c.txt"], []⟩ = false := by decide
    have hr1 : render ⟨[str "a", str "b.txt"], str "hi"⟩ = str "./a/b.txt" := by decide
    have hr2 : render ⟨[str "c.txt"], []⟩ = str "./c.txt" := by decide
    rw [encode_dir_plain_eq]
    simp [encodeBody, List.filter_cons, hig1, hig2, frameFor, hr1, hr2, create_file_sep]
  · exact (decode_encode hash (fun s => s) (fun s => s) Mode.Plain
      [⟨[str "a", str "b.txt"], str "hi"⟩, ⟨[str "c.txt"], []⟩]
      (by decide) (by decide) rfl (fun h => absurd h (by decide))
      (encodeBody_ascii hash Mode.Plain
        [⟨[str "a", str "b.txt"], str "hi"⟩, ⟨[str "c.txt"], []⟩]
        (by decide) (fun _ => by decide))).trans (by decide)

/-- C3: a line is recognized as a header exactly when it starts with
"====" and ends with "====" plus newline; on a well-formed header the
decoder extracts precisely the path (strip 4 and 5, take before the
first '|'); the tag text is discarded: scanning is unchanged under any
replacement of the tag. -/
theorem header_recognition (p t₁ t₂ rest l₀ : List Nat) (mode : Mode)
    (curr : Option (List Nat × List Nat)) (acc : List (List Nat × List Nat))
    (hp10 : 10 ∉ p) (hp124 : 124 ∉ p) (ht₁ : 10 ∉ t₁) (ht₂ : 10 ∉ t₂) :
    isHeaderLine (file_sep p t₁) = true
    ∧ extractHeaderPath (file_sep p t₁) = some p
    ∧ isHeaderLine l₀ = ((str "====").isPrefixOf l₀ && (str "====\n").isSuffixOf l₀)
    ∧ scanLines mode (splitAfterNL (file_sep p t₁ ++ rest)) curr acc
        = scanLines mode (splitAfterNL (file_sep p t₂ ++ rest)) curr acc := by
  refine ⟨isHeaderLine_file_sep p t₁, extractHeaderPath_file_sep p t₁ hp124, rfl, ?_⟩
  rw [splitAfterNL_file_sep _ _ _ hp10 ht₁, splitAfterNL_file_sep _ _ _ hp10 ht₂]
  rw [scanLines_header mode _ _ curr acc p (isHeaderLine_file_sep _ _)
        (extractHeaderPath_file_sep _ _ hp124),
      scanLines_header mode _ _ curr acc p (isHeaderLine_file_sep _ _)
        (extractHeaderPath_file_sep _ _ hp124)]

theorem header_recognition_witness :
    isHeaderLine (file_sep (str "a.txt") (str "1")) = true
    ∧ extractHeaderPath (file_sep (str "a.txt") (str "1")) = some (str "a.txt")
    ∧ isHeaderLine (str "xx")
        = ((str "====").isPrefixOf (str "xx") && (str "====\n").isSuffixOf (str "xx"))
    ∧ scanLines Mode.Plain (splitAfterNL (file_sep (str "a.txt") (str "1") ++ [])) none []
        = scanLines Mode.Plain (splitAfterNL (file_sep (str "a.txt") (str "2") ++ [])) none [] :=
  header_recognition (str "a.txt") (str "1") (str "2") [] (str "xx") Mode.Plain none []
    (by decide) (by decide) (by decide) (by decide)

/-- C4: the emitted frame header is exactly "====" + path + "|" +
decimal tag + "====" + newline, the path written verbatim with no
escaping, and the tag text is a decimal digit string. -/
theorem header_format (hash : List Nat → Nat) (path buffer : List Nat) :
    create_file_sep hash path buffer
      = str "====" ++ path ++ str "|" ++ natDec (hash buffer) ++ str "====\n"
    ∧ ∀ c ∈ natDec (hash buffer), 48 ≤ c ∧ c ≤ 57 :=
  ⟨rfl, fun c hc => natDecFuel_digits _ _ c hc⟩

/-- C5: an entry with an excluded path segment contributes nothing to
the archive (encoding the tree equals encoding the tree with all
ignored entries removed) and its path never appears in the decoded
output records, in every mode; the exclusion test is literal
segment-name equality against the six fixed names. -/
theorem excluded_never_output (hash : List Nat → Nat)
    (compress decompress : List Nat → List Nat) (mode : Mode)
    (entries : List Entry) (e : Entry)
    (he : e ∈ entries) (hex : isIgnored e = true)
    (hE : ∀ x ∈ entries, isIgnored x = false → entryOk x)
    (hP : mode = .Plain → ∀ x ∈ entries, isIgnored x = false → plainOk x.content)
    (hZ : decompress (compress (encodeBody hash mode entries)) = encodeBody hash mode entries)
    (hZB : mode = .CompressedTxt → bytesOk (compress (encodeBody hash mode entries)))
    (hdist : ∀ x ∈ entries, isIgnored x = false → render x ≠ render e) :
    encode_dir hash compress mode entries
      = encode_dir hash compress mode (entries.filter (fun x => !isIgnored x))
    ∧ (∀ r ∈ (decode_dir decompress mode
          (encode_dir hash compress mode entries)).getD [], r.1 ≠ render e)
    ∧ isIgnored e = e.path.any (fun seg => IGNORED_FILE_DIR.any (fun q => q == seg)) := by
  refine ⟨?_, ?_, rfl⟩
  · have hff : (entries.filter (fun x => !isIgnored x)).filter (fun x => !isIgnored x)
        = entries.filter (fun x => !isIgnored x) := by
      apply List.filter_eq_self.mpr
      intro a ha
      exact (List.mem_filter.mp ha).2
    have hbody : encodeBody hash mode (entries.filter (fun x => !isIgnored x))
        = encodeBody hash mode entries := by
      unfold encodeBody
      rw [hff]
    cases mode with
    | Plain => rw [encode_dir_plain_eq, encode_dir_plain_eq, hbody]
    | Base64 => rw [encode_dir_base64_eq, encode_dir_base64_eq, hbody]
    | CompressedTxt => rw [encode_dir_txt_eq, encode_dir_txt_eq, hbody]
    | CompressedBinary => rw [encode_dir_bin_eq, encode_dir_bin_eq, hbody]
  · cases hu : validUtf8 (encodeBody hash mode entries) with
    | false =>
      rw [decode_encode_invalid hash compress decompress mode entries hZ hZB hu]
      intro r hr
      simp at hr
    | true =>
      rw [decode_encode hash compress decompress mode entries hE hP hZ hZB hu]
      intro r hr
      simp only [Option.getD_some, List.mem_map] at hr
      obtain ⟨x, hx, hrx⟩ := hr
      rw [List.mem_filter] at hx
      have hne := hdist x hx.1 (by simpa using hx.2)
      rw [← hrx]
      exact hne

theorem excluded_never_output_witness :
    encode_dir (fun _ => 0) (fun s => s) Mode.Base64
        [⟨[str ".git", str "config"], str "x"⟩, ⟨[str "a.txt"], str "y"⟩]
      = encode_dir (fun _ => 0) (fun s => s) Mode.Base64
          ([⟨[str ".git", str "config"], str "x"⟩, ⟨[str "a.txt"], str "y"⟩].filter
            (fun x => !isIgnored x))
    ∧ (∀ r ∈ (decode_dir (fun s => s) Mode.Base64
          (encode_dir (fun _ => 0) (fun s => s) Mode.Base64
            [⟨[str ".git", str "config"], str "x"⟩, ⟨[str "a.txt"], str "y"⟩])).getD [],
        r.1 ≠ render ⟨[str ".git", str "config"], str "x"⟩)
    ∧ isIgnored ⟨[str ".git", str "config"], str "x"⟩
        = ([str ".git", str "config"] : List (List Nat)).any
            (fun seg => IGNORED_FILE_DIR.any (fun q => q == seg)) :=
  excluded_never_output (fun _ => 0) (fun s => s) (fun s => s) Mode.Base64
    [⟨[str ".git", str "config"], str "x"⟩, ⟨[str "a.txt"], str "y"⟩]
    ⟨[str ".git", str "config"], str "x"⟩
    (by decide) (by decide) (by decide) (by decide) rfl (by decide) (by decide)

/-- C6: after all entries, CompressedBinary writes the finished
compressor output verbatim and CompressedTxt writes its base64 text;
both compressed modes feed the compressor the same frame stream, whose
per-file payload is the base64 text of the file bytes plus a newline
(so CompressedTxt applies base64 twice). -/
theorem compressed_modes_finalize (hash : List Nat → Nat)
    (compress : List Nat → List Nat) (entries : List Entry) :
    encode_dir hash compress .CompressedBinary entries
      = compress (encodeBody hash .CompressedBinary entries)
    ∧ encode_dir hash compress .CompressedTxt entries
      = b64e (compress (encodeBody hash .CompressedTxt entries))
    ∧ encodeBody hash .CompressedBinary entries = encodeBody hash .CompressedTxt entries
    ∧ ∀ e : Entry, frameFor hash .CompressedTxt e
        = create_file_sep hash (render e) e.content ++ b64e e.content ++ [10] :=
  ⟨encode_dir_bin_eq hash compress entries, encode_dir_txt_eq hash compress entries,
    rfl, fun _ => rfl⟩

/-- C7: the tag is a deterministic pure function of the buffer alone:
the hasher is fed exactly the content bytes, so equal byte sequences
give equal tags and the rendered tag is independent of the path. -/
theorem tag_depends_only_on_bytes (hash : List Nat → Nat) (p₁ p₂ b₁ b₂ : List Nat)
    (h : b₁ = b₂) :
    create_file_sep hash p₁ b₁ = file_sep p₁ (natDec (hash b₂))
    ∧ create_file_sep hash p₂ b₂ = file_sep p₂ (natDec (hash b₁)) := by
  subst h
  exact ⟨rfl, rfl⟩

theorem tag_depends_only_on_bytes_witness :
    create_file_sep (fun b => b.length) (str "a") (str "hi")
      = file_sep (str "a") (natDec ((str "hi").length))
    ∧ create_file_sep (fun b => b.length) (str "b") (str "hi")
      = file_sep (str "b") (natDec ((str "hi").length)) :=
  tag_depends_only_on_bytes (fun b => b.length) (str "a") (str "b")
    (str "hi") (str "hi") rfl

/-- C8: the mode flag defaults to "--plain" when omitted; an
unrecognized mode is a fatal panic carrying the source's message; a
missing command, or one that is neither "encode" nor "decode", prints
the usage hint and the process ends without error. -/
theorem cli_spec (c mBad mGood : String) (rest rest2 : List String) (md : Mode)
    (hbad : parseMode mBad = none) (hgood : parseMode mGood = some md)
    (hc1 : c ≠ "encode") (hc2 : c ≠ "decode") :
    mainModel ["encode"] = MainResult.encodeRun Mode.Plain
    ∧ mainModel ["decode"] = MainResult.decodeRun Mode.Plain
    ∧ mainModel (c :: mBad :: rest)
        = MainResult.panicBadMode ("not support " ++ mBad ++
            ", available option are --[plain|base64|binary|text]")
    ∧ mainModel [] = MainResult.usageHint
    ∧ mainModel [c] = MainResult.usageHint
    ∧ mainModel (c :: mGood :: rest2) = MainResult.usageHint := by
  refine ⟨rfl, rfl, ?_, rfl, ?_, ?_⟩
  · simp [mainModel, hbad]
  · simp [mainModel, parseMode, hc1, hc2]
  · simp [mainModel, hgood, hc1, hc2]

theorem cli_spec_witness :
    mainModel ["encode"] = MainResult.encodeRun Mode.Plain
    ∧ mainModel ["decode"] = MainResult.decodeRun Mode.Plain
    ∧ mainModel ["frobnicate", "--gzip"]
        = MainResult.panicBadMode ("not support " ++ "--gzip" ++
            ", available option are --[plain|base64|binary|text]")
    ∧ mainModel [] = MainResult.usageHint
    ∧ mainModel ["frobnicate"] = MainResult.usageHint
    ∧ mainModel ["frobnicate", "--base64"] = MainResult.usageHint :=
  cli_spec "frobnicate" "--gzip" "--base64" [] [] Mode.Base64
    (by decide) (by decide) (by decide) (by decide)

/-- C9: in every mode other than Plain the scanner strips exactly the
last byte of each payload line before base64-decoding it, whether or
not that byte is a newline: a final payload line with no terminating
newline is still one line of the stream, and what is decoded is the
line minus its last base64 symbol, never the whole line. -/
theorem payload_drops_last_char (mode : Mode) (hm : mode ≠ .Plain) (p t line : List Nat)
    (hp10 : 10 ∉ p) (hp124 : 124 ∉ p) (ht : 10 ∉ t) (hl : 10 ∉ line) (hne : line ≠ [])
    (hnh : isHeaderLine line = false) :
    splitAfterNL (file_sep p t ++ line) = [file_sep p t, line]
    ∧ scanLines mode [file_sep p t, line] none []
        = (b64d line.dropLast).map (fun d => [(p, d)]) := by
  constructor
  · rw [splitAfterNL_file_sep _ _ _ hp10 ht, splitAfterNL_single line hl hne]
  · rw [scanLines_header mode _ _ none [] p (isHeaderLine_file_sep _ _)
      (extractHeaderPath_file_sep _ _ hp124)]
    cases hbd : b64d line.dropLast with
    | none =>
      cases mode with
      | Plain => exact absurd rfl hm
      | Base64 => simp [scanLines, hnh, hbd]
      | CompressedTxt => simp [scanLines, hnh, hbd]
      | CompressedBinary => simp [scanLines, hnh, hbd]
    | some d =>
      rw [scanLines_payload_b64 mode hm _ _ _ _ d _ hnh hbd]
      simp [scanLines]

theorem payload_drops_last_char_witness :
    scanLines Mode.Base64 [file_sep (str "p.txt") (str "3"), str "aGk0"] none []
      = some [(str "p.txt", str "hi")]
    ∧ b64d (str "aGk0") = some (str "hi4") := by
  constructor
  · exact ((payload_drops_last_char Mode.Base64 (by decide) (str "p.txt") (str "3")
      (str "aGk0") (by decide) (by decide) (by decide) (by decide) (by decide)
      (by decide)).2).trans (by decide)
  · decide

/-- C10: the line "====" plus newline passes both boundary checks of
the decoder, yet its length is below 9, so the strip-4-and-5 slice is
out of range and the decode aborts abnormally (the model's none is the
Rust slice panic) instead of returning an error value. -/
theorem header_slice_panics :
    isHeaderLine (str "====\n") = true
    ∧ (str "====\n").length < 9
    ∧ extractHeaderPath (str "====\n") = none
    ∧ decode_dir (fun s => s) Mode.Plain (str "====\n") = none := by
  decide

end Mito
